import Mathlib

/-!
Verification of the server.js REST gateway (users / attendanceHistory CRUD
over a remote relational store).  The handlers are shallowly embedded: each
route handler of server.js becomes a Lean function from an explicit store
state (plus request data) to a new store state and an HTTP response.
JSON objects are association lists of field name / value pairs; machine
numbers are modelled as Int (the id and order columns are integral).
-/

/-- A JSON-ish value as handled by the service: number, string, boolean or
null.  Numbers are modelled as Int, which covers every value the service
computes with (the id and order columns are integers). -/
inductive Val where
  | num (n : Int)
  | str (s : String)
  | bool (b : Bool)
  | null
deriving DecidableEq, Repr

/-- A JSON object / table row: an association list of field-name, value
pairs (first occurrence of a key wins on lookup, as in a JS object, whose
keys are unique). -/
abbrev Obj := List (String × Val)

/-- Field lookup in an object: value of the first pair carrying the key. -/
def getF : Obj → String → Option Val
  | [], _ => none
  | (k', v) :: rest, k => if k' == k then some v else getF rest k

/-- Remove every pair carrying the key, as the JS statement
delete update.id does for the key id. -/
def delF (o : Obj) (k : String) : Obj :=
  o.filter (fun p => !(p.1 == k))

/-- Write a field: all old pairs with the key are dropped and the new pair
appended.  Observationally (through getF) this is the JS assignment
obj[k] = v, or the override produced by an object literal spread. -/
def setF (o : Obj) (k : String) (v : Val) : Obj :=
  delF o k ++ [(k, v)]

/-- Column-wise update of a row, as the store applies an UPDATE: every
field of the update object is written into the row, fields not mentioned
are kept. -/
def applyUpdate (r : Obj) (u : Obj) : Obj :=
  u.foldl (fun acc p => setF acc p.1 p.2) r

/-- JS truthiness of a value, as used by the || and && operators in the
handlers. -/
def truthy : Val → Bool
  | Val.num n => !(n == 0)
  | Val.str s => !(s == "")
  | Val.bool b => b
  | Val.null => false

/-- The JS expression x + 1 on the values the service can hold (number
plus one; string concatenation with "1"; booleans and null coerce to
numbers). -/
def jsAddOne : Val → Val
  | Val.num n => Val.num (n + 1)
  | Val.str s => Val.str (s ++ "1")
  | Val.bool b => Val.num (if b then 2 else 1)
  | Val.null => Val.num 1

/-- The JS expression x ?? d (nullish coalescing): d when x is absent
(undefined) or null, x otherwise.  Used for body.checked ?? false. -/
def nullishDefault (v : Option Val) (d : Val) : Val :=
  match v with
  | some Val.null => d
  | some x => x
  | none => d

/-- Integer value of a list of decimal digit characters. -/
def digitsVal (cs : List Char) : Int :=
  cs.foldl (fun a c => a * 10 + ((c.toNat - '0'.toNat : Nat) : Int)) 0

/-- The JS conversion Number(s), modelled exactly on the identifier
fragment the claims below use: an optional-sign decimal-digit string
yields its exact integer value (Number() agrees with it whenever that
value has magnitude at most 2^53, where doubles are exact; beyond that
JS rounds while this model stays exact), the empty string yields 0 as in
JS, and every other string yields none.  Strings JS converts through
numeric forms outside this fragment (whitespace padding, fractions,
exponents, hex or radix prefixes, Infinity) also yield none here: for
them none is a model artifact, not a NaN verdict, and no theorem below
asserts anything about such identifiers. -/
def jsNumber (s : String) : Option Int :=
  match s.toList with
  | [] => some 0
  | '-' :: rest =>
      if rest.length > 0 && rest.all Char.isDigit then some (-(digitsVal rest)) else none
  | '+' :: rest =>
      if rest.length > 0 && rest.all Char.isDigit then some (digitsVal rest) else none
  | cs =>
      if cs.all Char.isDigit then some (digitsVal cs) else none

/-- The identifier conversion of every :id route:
const id = Number(req.params.id) || req.params.id.
When Number(s) is NaN or 0 (both falsy) the original string is kept. -/
def parseId (s : String) : Val :=
  match jsNumber s with
  | some n => if n == 0 then Val.str s else Val.num n
  | none => Val.str s

/-- An ASCII character that can occur in no string Number() converts to a
number: not a decimal digit, not a sign or decimal point, not an exponent
or radix letter (e, E, x, X, o, O, b, B), not a hex digit letter (a-f,
A-F), not a letter of Infinity and not ASCII whitespace.  A string
containing such a character is NaN under Number().  Characters beyond
ASCII are never flagged, since Unicode whitespace is trimmed by
Number(). -/
def definitelyNonNumericChar (c : Char) : Bool :=
  decide (c.toNat < 128) &&
  !(c.isDigit || c == '+' || c == '-' || c == '.' ||
    c == 'e' || c == 'E' || c == 'x' || c == 'X' || c == 'o' || c == 'O' ||
    c == 'a' || c == 'A' || c == 'b' || c == 'B' || c == 'c' || c == 'C' ||
    c == 'd' || c == 'D' || c == 'f' || c == 'F' ||
    c == 'I' || c == 'i' || c == 'n' || c == 'N' || c == 't' || c == 'y' ||
    c == ' ' || c == '\t' || c == '\n' || c == '\r' ||
    c == '\x0b' || c == '\x0c')

/-- The string holds a character that rules out any numeric conversion,
so Number() of it is NaN. -/
def hasNonNumericChar (s : String) : Bool :=
  s.toList.any definitelyNonNumericChar

/-- An integer of magnitude at most this bound (2^53) is represented
exactly by the JS double that Number() produces for its digit string;
beyond it JS rounds to the nearest double. -/
def jsExactIntBound : Nat := 9007199254740992

/-- Sort key used by the store for ORDER BY on the integer order column;
a row whose order field is not an integer is keyed 0 (the claims proved
below only involve rows with integer order values). -/
def orderKey (r : Obj) : Int :=
  match getF r "order" with
  | some (Val.num n) => n
  | _ => 0

/-- Ascending comparison on the order column. -/
def userOrderLe (a b : Obj) : Prop := orderKey a ≤ orderKey b

instance : DecidableRel userOrderLe := fun _ _ => Int.decLe _ _

instance : IsTotal Obj userOrderLe := ⟨fun _ _ => Int.le_total _ _⟩

instance : IsTrans Obj userOrderLe := ⟨fun _ _ _ => Int.le_trans⟩

/-- Descending comparison on the order column. -/
def userOrderGe (a b : Obj) : Prop := orderKey b ≤ orderKey a

instance : DecidableRel userOrderGe := fun _ _ => Int.decLe _ _

instance : IsTotal Obj userOrderGe := ⟨fun _ _ => Int.le_total _ _⟩

instance : IsTrans Obj userOrderGe := ⟨fun _ _ _ h1 h2 => Int.le_trans h2 h1⟩

/-- The store query select().order("order", ascending: true): the rows in
ascending order of their order column (a deterministic sorted permutation
models the ORDER BY of the store). -/
def sortByOrder (l : List Obj) : List Obj :=
  List.insertionSort userOrderLe l

/-- The store query select().order("order", ascending: false). -/
def sortByOrderDesc (l : List Obj) : List Obj :=
  List.insertionSort userOrderGe l

/-- The remote store state seen by the service: the two tables, plus the
next primary-key value the store will assign on an insert that does not
supply an id. -/
structure Store where
  users : List Obj
  attendance : List Obj
  nextId : Int
deriving DecidableEq, Repr

/-- Body of an HTTP response of the service. -/
inductive RespBody where
  /-- A JSON array of rows (the list endpoints). -/
  | rows (rs : List Obj)
  /-- A single JSON row (create / update endpoints). -/
  | row (r : Obj)
  /-- The JSON object with success: true (the delete endpoints). -/
  | success
  /-- A 400 domain error body with an error message. -/
  | err (msg : String)
  /-- A 500 body with error and detail fields, as built by handleErr. -/
  | errDetail (msg : String) (detail : String)
deriving DecidableEq, Repr

/-- An HTTP response: status code and JSON body. -/
structure Response where
  status : Nat
  body : RespBody
deriving DecidableEq, Repr

/-- The shared error helper handleErr: status 500 with body
error: "Server xatosi", detail: the store error message. -/
def internalErr (detail : String) : Response :=
  ⟨500, RespBody.errDetail "Server xatosi" detail⟩

/-- Recognises the 500 InternalError response shape produced by
handleErr. -/
def isInternalErr (resp : Response) : Bool :=
  resp.status == 500 &&
    (match resp.body with
     | RespBody.errDetail e _ => e == "Server xatosi"
     | _ => false)

/-- GET /users: all user rows ordered ascending by order, status 200. -/
def getUsers (s : Store) : Response :=
  ⟨200, RespBody.rows (sortByOrder s.users)⟩

/-- The newOrder computation of POST /users: query the top row of the
order column sorted descending with limit 1, take its order value if it
is truthy (the JS expression (maxOrderRows && maxOrderRows[0]?.order) || 0),
and add 1. -/
def newOrderVal (users : List Obj) : Val :=
  let lastOrder : Val :=
    match (sortByOrderDesc users).head? with
    | some r =>
        match getF r "order" with
        | some v => if truthy v then v else Val.num 0
        | none => Val.num 0
    | none => Val.num 0
  jsAddOne lastOrder

/-- The insert payload of POST /users: the object literal
spread of body with order set to the computed order and checked set to
body.checked ?? false. -/
def userPayload (s : Store) (body : Obj) : Obj :=
  setF (setF body "order" (newOrderVal s.users)) "checked"
    (nullishDefault (getF body "checked") (Val.bool false))

/-- The store INSERT: the row is stored as given; when it carries no id
field the store assigns the next primary-key value. -/
def insertRow (nid : Int) (r : Obj) : Obj :=
  match getF r "id" with
  | some _ => r
  | none => setF r "id" (Val.num nid)

/-- The row inserted and returned by POST /users. -/
def postedUser (s : Store) (body : Obj) : Obj :=
  insertRow s.nextId (userPayload s body)

/-- POST /users: compute the new order, build the payload, insert it and
answer 201 with the inserted row. -/
def postUser (s : Store) (body : Obj) : Store × Response :=
  ({ s with users := s.users ++ [postedUser s body], nextId := s.nextId + 1 },
   ⟨201, RespBody.row (postedUser s body)⟩)

/-- The store UPDATE ... WHERE id = idv: every row whose id field equals
the given value receives the update object, other rows are untouched. -/
def updateRowsBy (rows : List Obj) (idv : Option Val) (u : Obj) : List Obj :=
  rows.map (fun r => if getF r "id" == idv then applyUpdate r u else r)

/-- PUT /users/:id: parse the identifier, strip id from the body, update
the matching rows; select().single() answers the updated row when exactly
one row matched and a 500 store error otherwise (no row returned, or more
than one). -/
def putUser (s : Store) (idStr : String) (body : Obj) : Store × Response :=
  let idv := parseId idStr
  let upd := delF body "id"
  let newUsers := updateRowsBy s.users (some idv) upd
  match s.users.filter (fun r => getF r "id" == some idv) with
  | [r] => ({ s with users := newUsers }, ⟨200, RespBody.row (applyUpdate r upd)⟩)
  | _ => ({ s with users := newUsers },
          internalErr "JSON object requested, multiple (or no) rows returned")

/-- PATCH /users/:id: the handler body is identical to the PUT handler,
verbatim. -/
def patchUser (s : Store) (idStr : String) (body : Obj) : Store × Response :=
  let idv := parseId idStr
  let upd := delF body "id"
  let newUsers := updateRowsBy s.users (some idv) upd
  match s.users.filter (fun r => getF r "id" == some idv) with
  | [r] => ({ s with users := newUsers }, ⟨200, RespBody.row (applyUpdate r upd)⟩)
  | _ => ({ s with users := newUsers },
          internalErr "JSON object requested, multiple (or no) rows returned")

/-- The store DELETE ... WHERE id = idv: rows whose id equals the value
are removed; deleting zero rows is not an error. -/
def deleteRows (rows : List Obj) (idv : Val) : List Obj :=
  rows.filter (fun r => !(getF r "id" == some idv))

/-- Failure schedule for one DELETE /users/:id request: whether the
primary delete errors, whether the re-fetch errors (each with the store
error message), and which iterations of the corrective-update loop have
their awaited update fail (the handler never reads those results). -/
structure DeleteSchedule where
  delErr : Option String
  fetchErr : Option String
  updErrs : List Bool
deriving DecidableEq, Repr

/-- The corrective-update loop of DELETE /users/:id: walk the fetched
snapshot with its 1-based position n; whenever a snapshot row's order
differs from n (the JS test all[i].order !== i + 1), issue an update of
the order column keyed by that row's id — unless the schedule makes that
update fail, in which case the store is unchanged and the loop continues
(the handler ignores update results). -/
def resequenceFromSched : List Obj → List Obj → Int → List Bool → List Obj
  | store, [], _, _ => store
  | store, q :: rest, n, errs =>
      let store' :=
        if getF q "order" == some (Val.num n) then store
        else if errs.headD false then store
        else updateRowsBy store (getF q "id") [("order", Val.num n)]
      resequenceFromSched store' rest (n + 1) errs.tail

/-- DELETE /users/:id under a failure schedule: a failing primary delete
answers 500 and mutates nothing; otherwise the rows with the identifier
are removed, and a failing re-fetch answers 500; otherwise the
corrective-update loop runs over the re-fetched rows sorted by order and
the handler answers 200 with success: true. -/
def deleteUserSched (s : Store) (idStr : String) (sch : DeleteSchedule) :
    Store × Response :=
  let idv := parseId idStr
  match sch.delErr with
  | some e => (s, internalErr e)
  | none =>
      let afterDel := deleteRows s.users idv
      match sch.fetchErr with
      | some e => ({ s with users := afterDel }, internalErr e)
      | none =>
          let snap := sortByOrder afterDel
          let final := resequenceFromSched afterDel snap 1 sch.updErrs
          ({ s with users := final }, ⟨200, RespBody.success⟩)

/-- DELETE /users/:id when every store call succeeds. -/
def deleteUser (s : Store) (idStr : String) : Store × Response :=
  deleteUserSched s idStr ⟨none, none, []⟩

/-- The duplicate check of POST /attendanceHistory: the store filters
eq("date", body.date), eq("group", body.group), eq("day", body.day). -/
def matchesTriple (body r : Obj) : Bool :=
  (getF r "date" == getF body "date") &&
  (getF r "group" == getF body "group") &&
  (getF r "day" == getF body "day")

/-- POST /attendanceHistory: reject with the 400 domain error when any
existing record matches the (date, group, day) triple of the body,
otherwise insert the body and answer 201 with the inserted row. -/
def postAttendanceHistory (s : Store) (body : Obj) : Store × Response :=
  if ((s.attendance.filter (fun r => matchesTriple body r)).length > 0) then
    (s, ⟨400, RespBody.err "Bu guruhning bugungi davomati mavjud."⟩)
  else
    let ins := insertRow s.nextId body
    ({ s with attendance := s.attendance ++ [ins], nextId := s.nextId + 1 },
     ⟨201, RespBody.row ins⟩)

/-- PUT /attendanceHistory/:id: same mechanics as PUT /users/:id, on the
attendanceHistory table. -/
def putAttendanceHistory (s : Store) (idStr : String) (body : Obj) :
    Store × Response :=
  let idv := parseId idStr
  let upd := delF body "id"
  let newRows := updateRowsBy s.attendance (some idv) upd
  match s.attendance.filter (fun r => getF r "id" == some idv) with
  | [r] => ({ s with attendance := newRows }, ⟨200, RespBody.row (applyUpdate r upd)⟩)
  | _ => ({ s with attendance := newRows },
          internalErr "JSON object requested, multiple (or no) rows returned")

/-- DELETE /attendanceHistory/:id: remove the rows with the identifier
and answer 200 with success: true (no re-sequencing; deleting zero rows
is not a store error). -/
def deleteAttendanceHistory (s : Store) (idStr : String) : Store × Response :=
  ({ s with attendance := deleteRows s.attendance (parseId idStr) },
   ⟨200, RespBody.success⟩)
/-! ### Association-list lemmas -/

theorem getF_append (o1 o2 : Obj) (k : String) :
    getF (o1 ++ o2) k = (getF o1 k).or (getF o2 k) := by
  induction o1 with
  | nil => simp [getF]
  | cons p rest ih =>
      obtain ⟨k', v⟩ := p
      by_cases h : k' = k <;> simp [getF, h, ih, beq_iff_eq]

theorem getF_eq_none_of_forall {o : Obj} {k : String}
    (h : ∀ p ∈ o, p.1 ≠ k) : getF o k = none := by
  induction o with
  | nil => rfl
  | cons p rest ih =>
      have hp : p.1 ≠ k := h p (List.mem_cons_self p rest)
      simp only [getF, beq_iff_eq]
      rw [if_neg (by simpa using hp)]
      exact ih fun q hq => h q (List.mem_cons_of_mem p hq)

theorem getF_delF (o : Obj) (k k' : String) :
    getF (delF o k') k = if k = k' then none else getF o k := by
  induction o with
  | nil => simp [delF, getF]
  | cons p rest ih =>
      obtain ⟨k0, v⟩ := p
      by_cases h0 : k0 = k'
      · subst h0
        have h1 : delF ((k0, v) :: rest) k0 = delF rest k0 := by
          simp [delF, List.filter_cons]
        rw [h1, ih]
        by_cases hk : k = k0
        · simp [hk]
        · simp [getF, hk, beq_iff_eq, Ne.symm hk]
      · have h1 : delF ((k0, v) :: rest) k' = (k0, v) :: delF rest k' := by
          simp [delF, List.filter_cons, h0]
        rw [h1]
        by_cases hk0 : k0 = k
        · subst hk0
          have hkne : k0 ≠ k' := h0
          simp [getF, beq_iff_eq, hkne]
        · simp [getF, beq_iff_eq, hk0, ih]

theorem getF_setF (o : Obj) (k k' : String) (v : Val) :
    getF (setF o k' v) k = if k = k' then some v else getF o k := by
  unfold setF
  rw [getF_append, getF_delF]
  by_cases hk : k = k'
  · simp [hk, getF]
  · simp only [hk, if_false]
    cases getF o k <;> simp [Option.or, getF, beq_iff_eq, Ne.symm hk]

theorem getF_reverse_of_nodup {o : Obj} (k : String)
    (h : (o.map Prod.fst).Nodup) : getF o.reverse k = getF o k := by
  induction o with
  | nil => rfl
  | cons p rest ih =>
      obtain ⟨k0, v⟩ := p
      simp only [List.map_cons, List.nodup_cons] at h
      obtain ⟨hnot, hrest⟩ := h
      rw [List.reverse_cons, getF_append]
      by_cases hk : k0 = k
      · subst hk
        have : getF rest k0 = none :=
          getF_eq_none_of_forall fun q hq hEq => hnot (hEq ▸ List.mem_map_of_mem Prod.fst hq)
        rw [ih hrest, this]
        simp [Option.or, getF]
      · rw [ih hrest]
        cases hg : getF rest k <;> simp [Option.or, getF, beq_iff_eq, hk, hg]

theorem applyUpdate_getF (u : Obj) (r : Obj) (k : String) :
    getF (applyUpdate r u) k = (getF u.reverse k).or (getF r k) := by
  induction u generalizing r with
  | nil => simp [applyUpdate, getF, Option.or]
  | cons p u' ih =>
      obtain ⟨k0, v⟩ := p
      have h1 : applyUpdate r ((k0, v) :: u') = applyUpdate (setF r k0 v) u' := rfl
      rw [h1, ih, List.reverse_cons, getF_append, getF_setF]
      by_cases hk : k = k0
      · subst hk
        cases hg : getF u'.reverse k <;> simp [Option.or, getF]
      · cases hg : getF u'.reverse k <;> simp [Option.or, getF, beq_iff_eq, hk, Ne.symm hk]

theorem getF_insertRow_ne (nid : Int) (r : Obj) {k : String} (h : k ≠ "id") :
    getF (insertRow nid r) k = getF r k := by
  unfold insertRow
  cases getF r "id" <;> simp [getF_setF, h]

/-! ### Sort wrappers -/

theorem sortByOrder_perm (l : List Obj) : (sortByOrder l).Perm l :=
  List.perm_insertionSort userOrderLe l

theorem sortByOrder_sorted (l : List Obj) :
    (sortByOrder l).Pairwise userOrderLe :=
  List.sorted_insertionSort userOrderLe l

theorem sortByOrderDesc_perm (l : List Obj) : (sortByOrderDesc l).Perm l :=
  List.perm_insertionSort userOrderGe l

theorem sortByOrderDesc_sorted (l : List Obj) :
    (sortByOrderDesc l).Pairwise userOrderGe :=
  List.sorted_insertionSort userOrderGe l

/-! ### Claim theorems (first batch) -/

/-- C9: every GET /users request answers status 200 with the (possibly
empty) JSON array of all user records sorted ascending by their order
field: the body is exactly the sorted listing, which is a permutation of
the whole users table and is pairwise ascending on the order column. -/
theorem getUsers_sorted (s : Store) :
    (getUsers s).status = 200
  ∧ (getUsers s).body = RespBody.rows (sortByOrder s.users)
  ∧ (sortByOrder s.users).Perm s.users
  ∧ (sortByOrder s.users).Pairwise userOrderLe :=
  ⟨rfl, rfl, sortByOrder_perm s.users, sortByOrder_sorted s.users⟩

/-- C7: PATCH /users/:id performs exactly the same operation as
PUT /users/:id: on identical identifier, body and store state the two
handlers return identical store states and identical responses. -/
theorem putUser_eq_patchUser :
    ∀ (s : Store) (idStr : String) (body : Obj),
      putUser s idStr body = patchUser s idStr body :=
  fun _ _ _ => rfl

/-- C6 counterexample: the identifier string "0" parses as the number 0,
yet the handler conversion keeps the string "0" (Number("0") is falsy, so
the || falls back to the raw string), contradicting the claim that any
identifier parsing as a number is converted to a numeric value. -/
theorem parseId_zero_cex :
    jsNumber "0" = some 0 ∧ parseId "0" = Val.str "0" ∧ parseId "0" ≠ Val.num 0 := by
  decide

/-- A string holding a character no JS numeric literal can contain is
not converted by the modelled fragment either. -/
theorem jsNumber_none_of_nonNumeric (s : String)
    (h : hasNonNumericChar s = true) : jsNumber s = none := by
  unfold hasNonNumericChar at h
  obtain ⟨c, hc, hflag⟩ := List.any_eq_true.mp h
  have hdig : c.isDigit = false := by
    cases hd : c.isDigit
    · rfl
    · simp [definitelyNonNumericChar, hd] at hflag
  have hplus : (c == '+') = false := by
    cases hp : (c == '+')
    · rfl
    · simp [definitelyNonNumericChar, hp] at hflag
  have hminus : (c == '-') = false := by
    cases hm : (c == '-')
    · rfl
    · simp [definitelyNonNumericChar, hm] at hflag
  have hall : ∀ l : List Char, c ∈ l → l.all Char.isDigit = false := fun l hl =>
    List.all_eq_false.mpr ⟨c, hl, by simp [hdig]⟩
  unfold jsNumber
  split
  · rename_i heq
    rw [heq] at hc
    cases hc
  · rename_i rest heq
    rw [heq] at hc
    have hcrest : c ∈ rest := by
      rcases List.mem_cons.mp hc with hceq | hm
      · exact absurd (beq_iff_eq.mpr hceq) (by simp [hminus])
      · exact hm
    simp [hall rest hcrest]
  · rename_i rest heq
    rw [heq] at hc
    have hcrest : c ∈ rest := by
      rcases List.mem_cons.mp hc with hceq | hm
      · exact absurd (beq_iff_eq.mpr hceq) (by simp [hplus])
      · exact hm
    simp [hall rest hcrest]
  · rename_i heq h1 h2
    simp only [hall s.toList hc, Bool.false_eq_true, if_false]

/-- C6 amended, on the identifier fragments the embedding models
exactly.  An optional-sign decimal-digit identifier whose exact value n
is nonzero and exactly representable as a JS number (magnitude at most
2^53) is converted to the number n; such an identifier whose value is 0
(Number() of it, as of "0", "-0" or "", is the falsy 0) is passed
through unchanged as the original string; and an identifier containing a
character that can occur in no JS numeric literal (Number() of it is the
falsy NaN) is likewise passed through unchanged.  Identifiers outside
these fragments (fractional, exponent, hex, Infinity or
whitespace-padded forms, and digit strings JS rounds) are not covered by
this theorem. -/
theorem parseId_conversion (s : String) :
    (∀ n : Int, jsNumber s = some n → n ≠ 0 → n.natAbs ≤ jsExactIntBound →
        parseId s = Val.num n)
  ∧ (jsNumber s = some 0 → parseId s = Val.str s)
  ∧ (hasNonNumericChar s = true → parseId s = Val.str s) := by
  refine ⟨fun n h hn _ => ?_, fun h => ?_, fun h => ?_⟩
  · simp [parseId, h]
    intro h0
    exact absurd h0 hn
  · simp [parseId, h]
  · simp [parseId, jsNumber_none_of_nonNumeric s h]

/-- Witness for C6 at the concrete identifier "42". -/
theorem parseId_conversion_witness : parseId "42" = Val.num 42 :=
  (parseId_conversion "42").1 42 (by decide) (by decide) (by decide)

/-- C4 counterexample: a DELETE /users/:id request whose primary delete
succeeds but whose re-sequencing re-read fails is answered with the 500
InternalError built from the store message, not with success: true. -/
theorem deleteUser_resequence_failure_cex :
    (deleteUserSched ⟨[[("id", Val.num 1), ("order", Val.num 1)],
                       [("id", Val.num 2), ("order", Val.num 2)]], [], 3⟩ "1"
       ⟨none, some "connection reset", []⟩).2
      = internalErr "connection reset"
  ∧ (deleteUserSched ⟨[[("id", Val.num 1), ("order", Val.num 1)],
                       [("id", Val.num 2), ("order", Val.num 2)]], [], 3⟩ "1"
       ⟨none, some "connection reset", []⟩).2.status ≠ 200 := by
  decide

/-- C4 amended: when the primary delete and the re-sequencing re-read
both succeed, the response is 200 with success: true regardless of how
many corrective updates of the loop fail (their results are ignored);
when the re-read fails, the handler reports that store error as a 500
InternalError instead. -/
theorem deleteUser_response_reporting (s : Store) (idStr : String) (errs : List Bool) :
    (deleteUserSched s idStr ⟨none, none, errs⟩).2 = ⟨200, RespBody.success⟩
  ∧ (∀ e, (deleteUserSched s idStr ⟨none, some e, errs⟩).2 = internalErr e) :=
  ⟨rfl, fun _ => rfl⟩

/-- C5 counterexample: a DELETE /users/:id on an identifier matching no
record succeeds with 200 and success: true (the store reports no error
for a delete of zero rows), not with the 500 InternalError shape the
claim requires. -/
theorem deleteUser_notfound_cex :
    (deleteUser ⟨[[("id", Val.num 1), ("order", Val.num 1)]], [], 2⟩ "7").2
      = ⟨200, RespBody.success⟩
  ∧ isInternalErr (deleteUser ⟨[[("id", Val.num 1), ("order", Val.num 1)]], [], 2⟩ "7").2
      = false := by
  decide

/-- Keys absent from an object have no pair in it. -/
theorem forall_ne_of_getF_eq_none {o : Obj} {k : String} (h : getF o k = none) :
    ∀ p ∈ o, p.1 ≠ k := by
  induction o with
  | nil => simp
  | cons q rest ih =>
      obtain ⟨k0, v⟩ := q
      simp only [getF, beq_iff_eq] at h
      by_cases hk : k0 = k
      · rw [if_pos hk] at h; cases h
      · rw [if_neg hk] at h
        intro p hp
        rcases List.mem_cons.mp hp with hq | hmem
        · rw [hq]; exact hk
        · exact ih h p hmem

/-- C5 amended: an update keyed by an identifier matching no record is
answered with the same 500 InternalError shape as a genuine store
failure, for PUT /users/:id, PATCH /users/:id and
PUT /attendanceHistory/:id (the routes using select().single()); the two
DELETE routes, however, report success with 200 on a non-matching
identifier, because a delete of zero rows is not a store error (and no
PATCH route exists for /attendanceHistory). -/
theorem notfound_error_shape (s : Store) (idStr : String) (body : Obj)
    (hu : ∀ r ∈ s.users, getF r "id" ≠ some (parseId idStr))
    (ha : ∀ r ∈ s.attendance, getF r "id" ≠ some (parseId idStr)) :
    isInternalErr (putUser s idStr body).2 = true
  ∧ isInternalErr (patchUser s idStr body).2 = true
  ∧ isInternalErr (putAttendanceHistory s idStr body).2 = true
  ∧ (deleteUser s idStr).2 = ⟨200, RespBody.success⟩
  ∧ (deleteAttendanceHistory s idStr).2 = ⟨200, RespBody.success⟩ := by
  have hfilU : s.users.filter (fun r => getF r "id" == some (parseId idStr)) = [] :=
    List.filter_eq_nil_iff.mpr fun r hr => by simpa using hu r hr
  have hfilA : s.attendance.filter (fun r => getF r "id" == some (parseId idStr)) = [] :=
    List.filter_eq_nil_iff.mpr fun r hr => by simpa using ha r hr
  refine ⟨?_, ?_, ?_, rfl, rfl⟩ <;>
    simp only [putUser, patchUser, putAttendanceHistory, hfilU, hfilA] <;> rfl

/-- Witness for C5 at a store holding one user and one attendance record
with id 1 and the non-matching identifier "7". -/
theorem notfound_error_shape_witness :
    isInternalErr (putUser ⟨[[("id", Val.num 1)]], [[("id", Val.num 1)]], 2⟩ "7"
      [("name", Val.str "x")]).2 = true :=
  (notfound_error_shape ⟨[[("id", Val.num 1)]], [[("id", Val.num 1)]], 2⟩ "7"
    [("name", Val.str "x")] (by decide) (by decide)).1

/-- The order field of the row POST /users inserts is the computed order. -/
theorem postedUser_order (s : Store) (body : Obj) :
    getF (postedUser s body) "order" = some (newOrderVal s.users) := by
  unfold postedUser userPayload
  rw [getF_insertRow_ne _ _ (by decide), getF_setF, getF_setF]
  simp

/-- C2: for every POST /users request the handler appends exactly one row
and answers 201 with it; when the users table is empty that row receives
order 1, and when every existing row has an integer order whose maximum
is M it receives order M + 1. -/
theorem postUser_order_assignment (s : Store) (body : Obj)
    (hnum : ∀ r ∈ s.users, ∃ n : Int, getF r "order" = some (Val.num n)) :
    postUser s body
      = ({ s with users := s.users ++ [postedUser s body], nextId := s.nextId + 1 },
         ⟨201, RespBody.row (postedUser s body)⟩)
  ∧ (s.users = [] → getF (postedUser s body) "order" = some (Val.num 1))
  ∧ ∀ M : Int, (∃ r ∈ s.users, getF r "order" = some (Val.num M)) →
      (∀ r ∈ s.users, ∀ n : Int, getF r "order" = some (Val.num n) → n ≤ M) →
      getF (postedUser s body) "order" = some (Val.num (M + 1)) := by
  refine ⟨rfl, fun hempty => ?_, fun M hex hmax => ?_⟩
  · rw [postedUser_order]
    unfold newOrderVal sortByOrderDesc
    rw [hempty]
    rfl
  · rw [postedUser_order]
    obtain ⟨r1, hr1, hM⟩ := hex
    cases hl : sortByOrderDesc s.users with
    | nil =>
        exfalso
        have : r1 ∈ sortByOrderDesc s.users := ((sortByOrderDesc_perm s.users).mem_iff).mpr hr1
        rw [hl] at this
        cases this
    | cons r0 tl =>
        have hr0mem : r0 ∈ s.users :=
          ((sortByOrderDesc_perm s.users).mem_iff).mp (hl ▸ List.mem_cons_self r0 tl)
        obtain ⟨n0, hn0⟩ := hnum r0 hr0mem
        have hk0 : orderKey r0 = n0 := by unfold orderKey; rw [hn0]
        have hk1 : orderKey r1 = M := by unfold orderKey; rw [hM]
        have h1 : n0 ≤ M := hmax r0 hr0mem n0 hn0
        have h2 : M ≤ n0 := by
          have hr1' : r1 ∈ sortByOrderDesc s.users :=
            ((sortByOrderDesc_perm s.users).mem_iff).mpr hr1
          rw [hl] at hr1'
          rcases List.mem_cons.mp hr1' with hq | htl
          · rw [← hk1, hq, hk0]
          · have hsorted := sortByOrderDesc_sorted s.users
            rw [hl] at hsorted
            have := (List.pairwise_cons.mp hsorted).1 r1 htl
            unfold userOrderGe at this
            rw [hk0, hk1] at this
            exact this
        have hn0M : n0 = M := le_antisymm h1 h2
        subst hn0M
        unfold newOrderVal
        rw [hl]
        simp only [List.head?_cons]
        rw [hn0]
        by_cases h0 : n0 = 0
        · subst h0
          norm_num [truthy, jsAddOne]
        · simp [truthy, h0, jsAddOne]

/-- Witness for C2: a store whose maximal order is 2 receives a new row
with order 3. -/
theorem postUser_order_assignment_witness :
    getF (postedUser ⟨[[("id", Val.num 1), ("order", Val.num 2)],
                       [("id", Val.num 2), ("order", Val.num 1)]], [], 3⟩
            [("name", Val.str "x")]) "order" = some (Val.num 3) :=
  (postUser_order_assignment
      ⟨[[("id", Val.num 1), ("order", Val.num 2)],
        [("id", Val.num 2), ("order", Val.num 1)]], [], 3⟩
      [("name", Val.str "x")]
      (by intro r hr
          fin_cases hr
          · exact ⟨2, rfl⟩
          · exact ⟨1, rfl⟩)).2.2 2
      ⟨[("id", Val.num 1), ("order", Val.num 2)], by decide, rfl⟩
      (by intro r hr n hn
          fin_cases hr <;> simp [getF] at hn <;> omega)

/-- C10: the POST /users payload overwrites any caller-supplied order
with the server-computed order; a caller-supplied id is kept in the
payload and in the stored row unchanged; a caller-supplied checked equal
to null becomes false. -/
theorem postUser_payload_passthrough (s : Store) (body : Obj) :
    getF (userPayload s body) "order" = some (newOrderVal s.users)
  ∧ getF (postedUser s body) "order" = some (newOrderVal s.users)
  ∧ (∀ v, getF body "id" = some v →
      getF (userPayload s body) "id" = some v ∧ getF (postedUser s body) "id" = some v)
  ∧ (getF body "checked" = some Val.null →
      getF (postedUser s body) "checked" = some (Val.bool false)) := by
  refine ⟨?_, postedUser_order s body, fun v hv => ?_, fun hc => ?_⟩
  · unfold userPayload
    rw [getF_setF, getF_setF]
    simp
  · have hp : getF (userPayload s body) "id" = some v := by
      unfold userPayload
      rw [getF_setF, getF_setF]
      simpa using hv
    refine ⟨hp, ?_⟩
    unfold postedUser insertRow
    rw [hp]
    exact hp
  · unfold postedUser
    rw [getF_insertRow_ne _ _ (by decide)]
    unfold userPayload
    rw [getF_setF]
    simp [hc, nullishDefault]

/-- Witness for C10: a body supplying id 7, checked null and order 99
into an empty table is stored with id 7, checked false and order 1. -/
theorem postUser_payload_passthrough_witness :
    getF (postedUser ⟨[], [], 5⟩
        [("id", Val.num 7), ("checked", Val.null), ("order", Val.num 99)]) "id"
      = some (Val.num 7) :=
  ((postUser_payload_passthrough ⟨[], [], 5⟩
      [("id", Val.num 7), ("checked", Val.null), ("order", Val.num 99)]).2.2.1
    (Val.num 7) (by decide)).2

/-- C8: a PUT or PATCH /users/:id request maps every matched row through
the update built from the body with id stripped, and that update changes
only the supplied non-id fields: the stored identifier is untouched, any
unsupplied field keeps its value, and every supplied non-id field takes
the supplied value. -/
theorem update_field_isolation (s : Store) (idStr : String) (body : Obj) (r : Obj)
    (hkeys : (body.map Prod.fst).Nodup) :
    (putUser s idStr body).1.users
        = updateRowsBy s.users (some (parseId idStr)) (delF body "id")
  ∧ (patchUser s idStr body).1.users
        = updateRowsBy s.users (some (parseId idStr)) (delF body "id")
  ∧ getF (applyUpdate r (delF body "id")) "id" = getF r "id"
  ∧ (∀ k, k ≠ "id" → getF body k = none →
        getF (applyUpdate r (delF body "id")) k = getF r k)
  ∧ (∀ k v, k ≠ "id" → getF body k = some v →
        getF (applyUpdate r (delF body "id")) k = some v) := by
  refine ⟨?_, ?_, ?_, fun k hk hknone => ?_, fun k v hk hkv => ?_⟩
  · simp only [putUser]
    split <;> rfl
  · simp only [patchUser]
    split <;> rfl
  · have hnone : getF (delF body "id").reverse "id" = none :=
      getF_eq_none_of_forall fun p hp => by
        rw [List.mem_reverse] at hp
        simpa using List.of_mem_filter hp
    rw [applyUpdate_getF, hnone]
    rfl
  · have hnone : getF (delF body "id").reverse k = none :=
      getF_eq_none_of_forall fun p hp => by
        rw [List.mem_reverse] at hp
        exact forall_ne_of_getF_eq_none hknone p (List.mem_of_mem_filter hp)
    rw [applyUpdate_getF, hnone]
    rfl
  · have hsub : ((delF body "id").map Prod.fst).Sublist (body.map Prod.fst) :=
      (List.filter_sublist body).map Prod.fst
    have hnodup : ((delF body "id").map Prod.fst).Nodup := hkeys.sublist hsub
    rw [applyUpdate_getF, getF_reverse_of_nodup k hnodup, getF_delF,
        if_neg hk, hkv]
    rfl

/-- Witness for C8: updating the user with id 1 by a body carrying an id
and a name leaves the stored identifier unchanged. -/
theorem update_field_isolation_witness :
    getF (applyUpdate [("id", Val.num 1), ("name", Val.str "a"), ("order", Val.num 1)]
        (delF [("id", Val.num 9), ("name", Val.str "b")] "id")) "id"
      = getF [("id", Val.num 1), ("name", Val.str "a"), ("order", Val.num 1)] "id" :=
  (update_field_isolation
      ⟨[[("id", Val.num 1), ("name", Val.str "a"), ("order", Val.num 1)]], [], 2⟩ "1"
      [("id", Val.num 9), ("name", Val.str "b")]
      [("id", Val.num 1), ("name", Val.str "a"), ("order", Val.num 1)]
      (by decide)).2.2.1

/-- C3: a POST /attendanceHistory whose body triple (date, group, day)
matches some existing record is rejected with the 400 domain error and
the store is unchanged; when no record matches, the body is inserted
(verbatim except for a store-assigned id when none is supplied) and
answered with 201. -/
theorem postAttendanceHistory_duplicate_guard (s : Store) (body : Obj) :
    ((∃ r ∈ s.attendance, matchesTriple body r = true) →
        postAttendanceHistory s body
          = (s, ⟨400, RespBody.err "Bu guruhning bugungi davomati mavjud."⟩))
  ∧ ((∀ r ∈ s.attendance, matchesTriple body r = false) →
        postAttendanceHistory s body
          = ({ s with attendance := s.attendance ++ [insertRow s.nextId body],
                      nextId := s.nextId + 1 },
             ⟨201, RespBody.row (insertRow s.nextId body)⟩)
      ∧ ∀ k, k ≠ "id" → getF (insertRow s.nextId body) k = getF body k) := by
  constructor
  · rintro ⟨r, hr, hm⟩
    have hpos : 0 < (s.attendance.filter (fun r => matchesTriple body r)).length :=
      List.length_pos.mpr (List.ne_nil_of_mem (List.mem_filter.mpr ⟨hr, hm⟩))
    unfold postAttendanceHistory
    rw [if_pos hpos]
  · intro hnone
    have hnil : s.attendance.filter (fun r => matchesTriple body r) = [] :=
      List.filter_eq_nil_iff.mpr fun r hr => by simp [hnone r hr]
    constructor
    · unfold postAttendanceHistory
      rw [hnil]
      simp
    · intro k hk
      exact getF_insertRow_ne _ _ hk

/-- Witness for C3: a store already holding the (date, group, day) triple
of the body rejects the duplicate create with the 400 domain error. -/
theorem postAttendanceHistory_duplicate_guard_witness :
    postAttendanceHistory
        ⟨[], [[("id", Val.num 1), ("date", Val.str "2024-01-02"),
               ("group", Val.str "G1"), ("day", Val.str "Tue")]], 2⟩
        [("date", Val.str "2024-01-02"), ("group", Val.str "G1"),
         ("day", Val.str "Tue"), ("note", Val.str "extra")]
      = (⟨[], [[("id", Val.num 1), ("date", Val.str "2024-01-02"),
                ("group", Val.str "G1"), ("day", Val.str "Tue")]], 2⟩,
         ⟨400, RespBody.err "Bu guruhning bugungi davomati mavjud."⟩) :=
  (postAttendanceHistory_duplicate_guard
      ⟨[], [[("id", Val.num 1), ("date", Val.str "2024-01-02"),
             ("group", Val.str "G1"), ("day", Val.str "Tue")]], 2⟩
      [("date", Val.str "2024-01-02"), ("group", Val.str "G1"),
       ("day", Val.str "Tue"), ("note", Val.str "extra")]).1
    ⟨[("id", Val.num 1), ("date", Val.str "2024-01-02"),
      ("group", Val.str "G1"), ("day", Val.str "Tue")], by decide, by decide⟩

/-! ### The corrective-update loop as a row-wise map -/

/-- Effect of the whole corrective-update loop on one store row: walk the
snapshot with its target order n; a snapshot row q whose order already
equals n issues no update, otherwise the row receives order n when its id
matches the id of q. -/
def reseqRow : List Obj → Int → Obj → Obj
  | [], _, r => r
  | q :: rest, n, r =>
      reseqRow rest (n + 1)
        (if getF q "order" == some (Val.num n) then r
         else if getF r "id" == getF q "id" then setF r "order" (Val.num n) else r)

/-- With no scheduled failures, the corrective-update loop is the map of
reseqRow over the store rows (each iteration of the loop is itself a map
over the store, and maps compose). -/
theorem resequence_noerr_map :
    ∀ (snap store : List Obj) (n : Int),
      resequenceFromSched store snap n [] = store.map (reseqRow snap n) := by
  intro snap
  induction snap with
  | nil => intro store n; simp [resequenceFromSched, reseqRow]
  | cons q rest ih =>
      intro store n
      by_cases hc : (getF q "order" == some (Val.num n)) = true
      · have h1 : resequenceFromSched store (q :: rest) n []
            = resequenceFromSched store rest (n + 1) [] := by
          simp [resequenceFromSched, hc]
        rw [h1, ih]
        apply List.map_congr_left
        intro r _
        simp [reseqRow, hc]
      · have h1 : resequenceFromSched store (q :: rest) n []
            = resequenceFromSched
                (updateRowsBy store (getF q "id") [("order", Val.num n)]) rest (n + 1) [] := by
          simp [resequenceFromSched, hc]
        rw [h1, ih, updateRowsBy, List.map_map]
        apply List.map_congr_left
        intro r _
        simp only [Function.comp_apply, reseqRow, hc, if_false, Bool.false_eq_true]
        by_cases hid : (getF r "id" == getF q "id") = true
        · rw [if_pos hid, if_pos hid]
          rfl
        · rw [if_neg hid, if_neg hid]

/-- A row whose id matches no snapshot id is left alone by the loop. -/
theorem reseqRow_of_notmem :
    ∀ (snap : List Obj) (n : Int) (r : Obj),
      (∀ q ∈ snap, (getF r "id" == getF q "id") = false) → reseqRow snap n r = r := by
  intro snap
  induction snap with
  | nil => intro n r _; rfl
  | cons q rest ih =>
      intro n r h
      have hq := h q (List.mem_cons_self q rest)
      have h1 : reseqRow (q :: rest) n r = reseqRow rest (n + 1) r := by
        by_cases hc : (getF q "order" == some (Val.num n)) = true <;>
          simp [reseqRow, hc, hq]
      rw [h1]
      exact ih (n + 1) r fun p hp => h p (List.mem_cons_of_mem q hp)

/-- The snapshot after the loop: position k (0-based) of the snapshot
carries order n + k, untouched when it already did. -/
def renumber : List Obj → Int → List Obj
  | [], _ => []
  | q :: rest, n =>
      (if getF q "order" == some (Val.num n) then q else setF q "order" (Val.num n))
        :: renumber rest (n + 1)

/-- Mapping the loop effect over the snapshot itself renumbers it (the
snapshot ids being distinct, each row is touched exactly at its own
position). -/
theorem map_reseqRow_self :
    ∀ (snap : List Obj) (n : Int),
      (snap.map (fun q => getF q "id")).Nodup →
      snap.map (reseqRow snap n) = renumber snap n := by
  intro snap
  induction snap with
  | nil => intro n _; rfl
  | cons q rest ih =>
      intro n hnd
      simp only [List.map_cons, List.nodup_cons] at hnd
      obtain ⟨hq_nin, hrest⟩ := hnd
      have hne : ∀ p ∈ rest, (getF q "id" == getF p "id") = false := fun p hp =>
        beq_eq_false_iff_ne.mpr fun hEq =>
          hq_nin (hEq ▸ List.mem_map_of_mem (fun r => getF r "id") hp)
      have hhead : reseqRow (q :: rest) n q
          = (if getF q "order" == some (Val.num n) then q else setF q "order" (Val.num n)) := by
        have hstep : reseqRow (q :: rest) n q
            = reseqRow rest (n + 1)
                (if getF q "order" == some (Val.num n) then q
                 else setF q "order" (Val.num n)) := by
          simp only [reseqRow, beq_self_eq_true, if_true]
        rw [hstep]
        apply reseqRow_of_notmem
        intro p hp
        by_cases hc : (getF q "order" == some (Val.num n)) = true
        · rw [if_pos hc]; exact hne p hp
        · rw [if_neg hc]
          have : getF (setF q "order" (Val.num n)) "id" = getF q "id" := by
            rw [getF_setF]; simp
          rw [this]
          exact hne p hp
      have htail : rest.map (reseqRow (q :: rest) n) = rest.map (reseqRow rest (n + 1)) := by
        apply List.map_congr_left
        intro r hr
        have hrid : (getF r "id" == getF q "id") = false :=
          beq_eq_false_iff_ne.mpr fun hEq =>
            hq_nin (hEq ▸ List.mem_map_of_mem (fun p => getF p "id") hr)
        by_cases hc : (getF q "order" == some (Val.num n)) = true <;>
          simp [reseqRow, hc, hrid]
      rw [List.map_cons, hhead, htail, ih (n + 1) hrest]
      rfl

/-- Orders along the renumbered snapshot are n, n+1, ... in sequence. -/
theorem renumber_orders :
    ∀ (snap : List Obj) (n : Int),
      (renumber snap n).map (fun r => getF r "order")
        = (List.range snap.length).map (fun (i : Nat) => some (Val.num (n + (i : Int)))) := by
  intro snap
  induction snap with
  | nil => intro n; rfl
  | cons q rest ih =>
      intro n
      have hhead :
          getF (if getF q "order" == some (Val.num n) then q
                else setF q "order" (Val.num n)) "order" = some (Val.num n) := by
        by_cases hc : (getF q "order" == some (Val.num n)) = true
        · rw [if_pos hc]; exact beq_iff_eq.mp hc
        · rw [if_neg hc, getF_setF]; simp
      simp only [renumber, List.map_cons, List.length_cons, List.range_succ_eq_map,
                 List.map_map, hhead, ih (n + 1)]
      congr 1
      · norm_num
      · apply List.map_congr_left
        intro i _
        simp only [Function.comp_apply]
        congr 2
        push_cast
        ring

/-- Renumbering does not change the id column. -/
theorem renumber_ids :
    ∀ (snap : List Obj) (n : Int),
      (renumber snap n).map (fun r => getF r "id") = snap.map (fun r => getF r "id") := by
  intro snap
  induction snap with
  | nil => intro n; rfl
  | cons q rest ih =>
      intro n
      have hhead :
          getF (if getF q "order" == some (Val.num n) then q
                else setF q "order" (Val.num n)) "id" = getF q "id" := by
        by_cases hc : (getF q "order" == some (Val.num n)) = true
        · rw [if_pos hc]
        · rw [if_neg hc, getF_setF]; simp
      simp only [renumber, List.map_cons, hhead, ih (n + 1)]

/-- Every row of the renumbered snapshot has order key at least n. -/
theorem renumber_key_ge :
    ∀ (snap : List Obj) (n : Int) (r : Obj), r ∈ renumber snap n → n ≤ orderKey r := by
  intro snap
  induction snap with
  | nil => intro n r hr; cases hr
  | cons q rest ih =>
      intro n r hr
      rcases List.mem_cons.mp hr with hq | hmem
      · have hhead :
            getF (if getF q "order" == some (Val.num n) then q
                  else setF q "order" (Val.num n)) "order" = some (Val.num n) := by
          by_cases hc : (getF q "order" == some (Val.num n)) = true
          · rw [if_pos hc]; exact beq_iff_eq.mp hc
          · rw [if_neg hc, getF_setF]; simp
        rw [hq]
        unfold orderKey
        rw [hhead]
      · have := ih (n + 1) r hmem
        omega

/-- The renumbered snapshot is strictly increasing on the order key. -/
theorem renumber_sorted :
    ∀ (snap : List Obj) (n : Int),
      (renumber snap n).Pairwise (fun a b => orderKey a < orderKey b) := by
  intro snap
  induction snap with
  | nil => intro n; exact List.Pairwise.nil
  | cons q rest ih =>
      intro n
      refine List.Pairwise.cons (fun b hb => ?_) (ih (n + 1))
      have hb1 : n + 1 ≤ orderKey b := renumber_key_ge rest (n + 1) b hb
      have hhead :
          getF (if getF q "order" == some (Val.num n) then q
                else setF q "order" (Val.num n)) "order" = some (Val.num n) := by
        by_cases hc : (getF q "order" == some (Val.num n)) = true
        · rw [if_pos hc]; exact beq_iff_eq.mp hc
        · rw [if_neg hc, getF_setF]; simp
      have : orderKey (if getF q "order" == some (Val.num n) then q
                       else setF q "order" (Val.num n)) = n := by
        unfold orderKey; rw [hhead]
      rw [this]
      omega

/-- A permutation of a strictly increasing list that is itself sorted
(non-strictly) equals it. -/
theorem perm_sorted_strict_eq {l1 l2 : List Obj}
    (hp : l1.Perm l2) (h1 : l1.Pairwise userOrderLe)
    (h2 : l2.Pairwise (fun a b => orderKey a < orderKey b)) : l1 = l2 := by
  haveI : IsAntisymm Obj (fun a b => orderKey a < orderKey b) :=
    ⟨fun _ _ hab hba => absurd hba (lt_asymm hab)⟩
  have hnd2 : (l2.map orderKey).Nodup :=
    List.pairwise_map.mpr (h2.imp fun h => ne_of_lt h)
  have hnd1 : (l1.map orderKey).Nodup := ((hp.map orderKey).nodup_iff).mpr hnd2
  have hne1 : l1.Pairwise (fun a b => orderKey a ≠ orderKey b) := List.pairwise_map.mp hnd1
  have h1' : l1.Pairwise (fun a b => orderKey a < orderKey b) :=
    (h1.and hne1).imp fun h => lt_of_le_of_ne h.1 h.2
  exact List.eq_of_perm_of_sorted hp h1' h2

/-- C1: after a successful DELETE /users/:id (primary delete, re-read and
every corrective update succeeding), provided the stored rows carry
pairwise distinct id values, the surviving rows listed by ascending order
carry exactly the order values 1..N (N the surviving count) and appear in
the same relative order the survivors had before re-sequencing; the
response is 200 with success: true. -/
theorem deleteUser_order_density (s : Store) (idStr : String)
    (hnd : (s.users.map (fun r => getF r "id")).Nodup) :
    ((sortByOrder (deleteUser s idStr).1.users).map (fun r => getF r "order")
        = (List.range (deleteUser s idStr).1.users.length).map
            (fun (i : Nat) => some (Val.num ((i : Int) + 1))))
  ∧ ((sortByOrder (deleteUser s idStr).1.users).map (fun r => getF r "id")
        = (sortByOrder (deleteRows s.users (parseId idStr))).map (fun r => getF r "id"))
  ∧ (deleteUser s idStr).2 = ⟨200, RespBody.success⟩ := by
  set afterDel := deleteRows s.users (parseId idStr) with hAfter
  set snap := sortByOrder afterDel with hSnap
  have husers : (deleteUser s idStr).1.users = resequenceFromSched afterDel snap 1 [] := rfl
  have hresp : (deleteUser s idStr).2 = ⟨200, RespBody.success⟩ := rfl
  have hsubl : (afterDel.map (fun r => getF r "id")).Sublist
      (s.users.map (fun r => getF r "id")) :=
    (List.filter_sublist s.users).map _
  have hndA : (afterDel.map (fun r => getF r "id")).Nodup := List.Nodup.sublist hsubl hnd
  have hpermSnap : snap.Perm afterDel := sortByOrder_perm afterDel
  have hndSnap : (snap.map (fun r => getF r "id")).Nodup :=
    ((hpermSnap.map _).nodup_iff).mpr hndA
  have hfinal : resequenceFromSched afterDel snap 1 [] = afterDel.map (reseqRow snap 1) :=
    resequence_noerr_map snap afterDel 1
  have hmapsnap : snap.map (reseqRow snap 1) = renumber snap 1 :=
    map_reseqRow_self snap 1 hndSnap
  have hperm2 : ((deleteUser s idStr).1.users).Perm (renumber snap 1) := by
    rw [husers, hfinal, ← hmapsnap]
    exact (hpermSnap.symm).map _
  have heq : sortByOrder ((deleteUser s idStr).1.users) = renumber snap 1 :=
    perm_sorted_strict_eq ((sortByOrder_perm _).trans hperm2) (sortByOrder_sorted _)
      (renumber_sorted snap 1)
  refine ⟨?_, ?_, hresp⟩
  · have hlen : (deleteUser s idStr).1.users.length = snap.length := by
      rw [husers, hfinal, List.length_map]
      exact hpermSnap.length_eq.symm
    rw [heq, renumber_orders, hlen]
    apply List.map_congr_left
    intro i _
    rw [Int.add_comm]
  · rw [heq, renumber_ids]

/-- Witness for C1: deleting user 2 from a three-user table leaves orders
1 and 2 on the survivors, listed as ids 1 then 3. -/
theorem deleteUser_order_density_witness :
    ((sortByOrder (deleteUser ⟨[[("id", Val.num 1), ("order", Val.num 1)],
                                [("id", Val.num 2), ("order", Val.num 2)],
                                [("id", Val.num 3), ("order", Val.num 3)]], [], 4⟩
        "2").1.users).map (fun r => getF r "order")
      = (List.range (deleteUser ⟨[[("id", Val.num 1), ("order", Val.num 1)],
                                  [("id", Val.num 2), ("order", Val.num 2)],
                                  [("id", Val.num 3), ("order", Val.num 3)]], [], 4⟩
          "2").1.users.length).map (fun (i : Nat) => some (Val.num ((i : Int) + 1)))) :=
  (deleteUser_order_density
      ⟨[[("id", Val.num 1), ("order", Val.num 1)],
        [("id", Val.num 2), ("order", Val.num 2)],
        [("id", Val.num 3), ("order", Val.num 3)]], [], 4⟩ "2" (by decide)).1
